import Mathlib

/-!
Verification of the translation-generator repository (src/translator.py).

The Python program is shallowly embedded as executable Lean functions:

* A Python `dict` with string keys is modelled as an insertion-ordered
  association list (`PyDict`).  `pySet` mirrors `d[k] = v` (an existing key
  keeps its position, a new key is appended), `pyGet` mirrors `d.get(k)`,
  `pyHasKey` mirrors `k in d`.
* Fatal exits (`sys.exit`) and uncaught Python exceptions are modelled with
  `Except`: normal returns are `Except.ok`, aborts are `Except.error`.
* The filesystem is a `PyDict` from path to file content.
-/

/-- Insertion-ordered association list modelling a Python `dict` with string
keys (Python 3.7+ preserves insertion order). -/
abbrev PyDict (α : Type) : Type := List (String × α)

/-- Entry mapping of one locale file: key (string) to value (string). -/
abbrev EntryDict := PyDict String

/-- Python `d.get(k)`: value of the (for a dict: unique) entry whose key
equals `k`. -/
def pyGet {α : Type} (d : PyDict α) (k : String) : Option α :=
  match d with
  | [] => none
  | kv :: rest => if kv.1 = k then some kv.2 else pyGet rest k

/-- Python `d.get(k, dflt)`. -/
def pyGetD {α : Type} (d : PyDict α) (k : String) (dflt : α) : α :=
  (pyGet d k).getD dflt

/-- Python `k in d`. -/
def pyHasKey {α : Type} (d : PyDict α) (k : String) : Bool :=
  match d with
  | [] => false
  | kv :: rest => if kv.1 = k then true else pyHasKey rest k

/-- Python `d[k] = v`: replace the value of an existing key in place,
otherwise append the new entry at the end. -/
def pySet {α : Type} (d : PyDict α) (k : String) (v : α) : PyDict α :=
  match d with
  | [] => [(k, v)]
  | kv :: rest => if kv.1 = k then (k, v) :: rest else kv :: pySet rest k v

/-- Python `d.keys()` in iteration order. -/
def pyKeys {α : Type} (d : PyDict α) : List String :=
  List.map Prod.fst d

/-- Python `d.values()` in iteration order. -/
def pyValues {α : Type} (d : PyDict α) : List α :=
  List.map Prod.snd d

/-- Python `d1 == d2` on dicts: same keys and the same value at every key. -/
def dictBeq (d1 d2 : EntryDict) : Bool :=
  List.all d1 (fun kv => pyGet d2 kv.1 == some kv.2)
    && List.all d2 (fun kv => pyGet d1 kv.1 == some kv.2)

theorem pyGet_pySet {α : Type} (d : PyDict α) (k : String) (v : α) (k' : String) :
    pyGet (pySet d k v) k' = if k = k' then some v else pyGet d k' := by
  induction d with
  | nil =>
    by_cases h : k = k' <;> simp [pySet, pyGet, h]
  | cons kv rest ih =>
    by_cases hk : kv.1 = k
    · by_cases h : k = k'
      · simp [pySet, pyGet, hk, h]
      · have hkv : ¬ kv.1 = k' := by rw [hk]; exact h
        simp [pySet, pyGet, hk, h, hkv]
    · by_cases h : kv.1 = k'
      · have hkk : ¬ k = k' := fun e => hk (by rw [h, e])
        have hk2 : ¬ k' = k := fun e => hkk e.symm
        simp [pySet, pyGet, hk, h, hkk, hk2]
      · simp [pySet, pyGet, hk, h, ih]

theorem pyHasKey_pySet_self {α : Type} (d : PyDict α) (k : String) (v : α) :
    pyHasKey (pySet d k v) k = true := by
  induction d with
  | nil => simp [pySet, pyHasKey]
  | cons kv rest ih =>
    by_cases hk : kv.1 = k <;> simp [pySet, pyHasKey, hk, ih]

theorem pyGet_eq_none_of_not_hasKey {α : Type} (d : PyDict α) (k : String)
    (h : pyHasKey d k = false) : pyGet d k = none := by
  induction d with
  | nil => simp [pyGet]
  | cons kv rest ih =>
    by_cases hk : kv.1 = k
    · simp [pyHasKey, hk] at h
    · simp only [pyHasKey, if_neg hk] at h
      simp [pyGet, hk, ih h]

theorem pyGet_mem_values {α : Type} (d : PyDict α) (k : String) (v : α)
    (h : pyGet d k = some v) : v ∈ pyValues d := by
  induction d with
  | nil => simp [pyGet] at h
  | cons kv rest ih =>
    by_cases hk : kv.1 = k
    · simp only [pyGet, if_pos hk] at h
      injection h with h
      simp [pyValues, h]
    · simp only [pyGet, if_neg hk] at h
      have := ih h
      simp only [pyValues, List.map_cons, List.mem_cons]
      exact Or.inr (by simpa [pyValues] using this)

theorem pyHasKey_iff_mem_keys {α : Type} (d : PyDict α) (k : String) :
    pyHasKey d k = true ↔ k ∈ pyKeys d := by
  induction d with
  | nil => simp [pyHasKey, pyKeys]
  | cons kv rest ih =>
    by_cases hk : kv.1 = k
    · simp [pyHasKey, pyKeys, hk]
    · simp only [pyHasKey, if_neg hk, pyKeys, List.map_cons, List.mem_cons]
      rw [ih]
      constructor
      · exact fun hm => Or.inr (by simpa [pyKeys] using hm)
      · rintro (he | hm)
        · exact absurd he.symm hk
        · simpa [pyKeys] using hm

/-! Reconciliation engine, from `TranslationGenerator` in src/translator.py.

The method `new_entries(self, source, candidate, bundle)` reads
`source_dict = bundle[source]` and `candidate_dict = bundle[candidate]` and
then operates only on those two entry mappings; `new_entries_core` is that
computation with the two mappings passed directly. -/

/-- List comprehension of `TranslationGenerator.new_entries`:
`[candidate_dict[x] for x in candidate_dict.keys() if candidate_dict[x] not in
source_dict.values()]` (iterating a dict's keys and indexing back yields
exactly its values in order). -/
def new_values_of (source_dict candidate_dict : EntryDict) : List String :=
  List.filter (fun v => !(List.contains (pyValues source_dict) v)) (pyValues candidate_dict)

/-- Body of `TranslationGenerator.new_entries`: if the two mappings are
unequal, compute the new values and, when non-empty, store them under the
candidate file in `self.additions`. -/
def new_entries_core (source_dict candidate_dict : EntryDict) (candidate : String)
    (additions : PyDict (List String)) : PyDict (List String) :=
  if dictBeq source_dict candidate_dict then additions
  else if (new_values_of source_dict candidate_dict).isEmpty then additions
  else pySet additions candidate (new_values_of source_dict candidate_dict)

/-- The method `TranslationGenerator.new_entries` itself: look the two file
identifiers up in the parsed bundle and run the core computation. -/
def new_entries (source candidate : String) (bundle : PyDict EntryDict)
    (additions : PyDict (List String)) : PyDict (List String) :=
  new_entries_core (pyGetD bundle source []) (pyGetD bundle candidate []) candidate additions

/-- Per-file body of `TranslationGenerator.check_missing_keys_in_other_locales`:
the list comprehension building the strings "key: value" for source entries
whose key is absent from the candidate file. -/
def missing_for (source_dict candidate_dict : EntryDict) : List String :=
  List.map (fun kv => kv.1 ++ ": " ++ kv.2)
    (List.filter (fun kv => !(pyHasKey candidate_dict kv.1)) source_dict)

/-- One iteration of the loop in `check_missing_keys_in_other_locales`:
record the non-empty missing list under the file, else leave state alone. -/
def record_missing (source_dict : EntryDict) (file : String) (candidate_dict : EntryDict)
    (missing : PyDict (List String)) : PyDict (List String) :=
  if (missing_for source_dict candidate_dict).isEmpty then missing
  else pySet missing file (missing_for source_dict candidate_dict)

/-- The method `TranslationGenerator.check_missing_keys_in_other_locales`:
iterate over every file of the parsed bundle, comparing it to
`bundle[source]`. -/
def check_missing_keys_in_other_locales (source : String) (bundle : PyDict EntryDict)
    (missing : PyDict (List String)) : PyDict (List String) :=
  List.foldl (fun m kv => record_missing (pyGetD bundle source []) kv.1 kv.2 m) missing bundle

theorem new_entries_core_of_beq {S C : EntryDict} (cand : String)
    (adds : PyDict (List String)) (hb : dictBeq S C = true) :
    new_entries_core S C cand adds = adds := by
  unfold new_entries_core
  rw [if_pos hb]

theorem new_entries_core_of_nil {S C : EntryDict} (cand : String)
    (adds : PyDict (List String)) (hb : dictBeq S C = false)
    (he : new_values_of S C = []) :
    new_entries_core S C cand adds = adds := by
  unfold new_entries_core
  rw [if_neg (by simp [hb]), if_pos (by simp [he])]

theorem new_entries_core_of_set {S C : EntryDict} (cand : String)
    (adds : PyDict (List String)) (hb : dictBeq S C = false)
    (he : new_values_of S C ≠ []) :
    new_entries_core S C cand adds = pySet adds cand (new_values_of S C) := by
  unfold new_entries_core
  rw [if_neg (by simp [hb]), if_neg (by simp [List.isEmpty_iff]; exact he)]

theorem values_subset_of_dictBeq (S C : EntryDict) (h : dictBeq S C = true) :
    ∀ v ∈ pyValues C, v ∈ pyValues S := by
  intro v hv
  simp only [dictBeq, Bool.and_eq_true, List.all_eq_true] at h
  simp only [pyValues, List.mem_map] at hv
  obtain ⟨kv, hmem, hsnd⟩ := hv
  have := h.2 kv hmem
  have hget : pyGet S kv.1 = some kv.2 := by simpa using this
  exact hsnd ▸ pyGet_mem_values S kv.1 kv.2 hget

theorem new_values_of_eq_nil_iff (S C : EntryDict) :
    new_values_of S C = [] ↔ ∀ v ∈ pyValues C, v ∈ pyValues S := by
  unfold new_values_of
  rw [List.filter_eq_nil_iff]
  constructor
  · intro h v hv
    have := h v hv
    simpa [List.contains] using this
  · intro h v hv
    simpa [List.contains] using h v hv

/-- C1: for all entry mappings S (snapshot) and C (current default locale),
`new_entries` records no entry for the candidate file iff every value of C
already appears among the values of S; when it does record an entry, the
entry is exactly the list of candidate values absent from S's values (values,
never keys), and it is computed only when the two mappings are unequal. -/
theorem c1_new_entries_values_only (S C : EntryDict) (cand : String)
    (adds : PyDict (List String)) (h : pyHasKey adds cand = false) :
    (new_entries_core S C cand adds = adds ↔ ∀ v ∈ pyValues C, v ∈ pyValues S)
    ∧ (dictBeq S C = true → new_entries_core S C cand adds = adds)
    ∧ (∀ nv, pyGet (new_entries_core S C cand adds) cand = some nv →
        nv = new_values_of S C ∧ dictBeq S C = false ∧ nv ≠ []) := by
  refine ⟨⟨?_, ?_⟩, ?_, ?_⟩
  · intro heq
    by_contra hnot
    have hbeq : dictBeq S C = false := by
      cases hb : dictBeq S C with
      | false => rfl
      | true => exact absurd (values_subset_of_dictBeq S C hb) hnot
    have hnv : new_values_of S C ≠ [] :=
      fun he => hnot ((new_values_of_eq_nil_iff S C).mp he)
    have hres := new_entries_core_of_set cand adds hbeq hnv
    have hkey := pyHasKey_pySet_self adds cand (new_values_of S C)
    rw [← hres, heq] at hkey
    rw [hkey] at h
    exact Bool.noConfusion h
  · intro hall
    cases hb : dictBeq S C with
    | true => exact new_entries_core_of_beq cand adds hb
    | false =>
      exact new_entries_core_of_nil cand adds hb ((new_values_of_eq_nil_iff S C).mpr hall)
  · intro hb
    exact new_entries_core_of_beq cand adds hb
  · intro nv hget
    have hnone : pyGet adds cand = none := pyGet_eq_none_of_not_hasKey adds cand h
    cases hb : dictBeq S C with
    | true =>
      rw [new_entries_core_of_beq cand adds hb, hnone] at hget
      exact absurd hget (by simp)
    | false =>
      by_cases he : new_values_of S C = []
      · rw [new_entries_core_of_nil cand adds hb he, hnone] at hget
        exact absurd hget (by simp)
      · rw [new_entries_core_of_set cand adds hb he, pyGet_pySet, if_pos rfl] at hget
        injection hget with hget
        exact ⟨hget.symm, rfl, fun hnil => he (hnil ▸ hget)⟩

/-- C1 witness: snapshot {a: 1}, candidate {a: 1, b: 2}; the value "2" is new,
so an entry is recorded for the candidate file. -/
theorem c1_witness :
    pyHasKey ([] : PyDict (List String)) "app_en_US.json" = false
    ∧ ((new_entries_core [("a", "1")] [("a", "1"), ("b", "2")] "app_en_US.json" []
          = ([] : PyDict (List String)))
        ↔ ∀ v ∈ pyValues [("a", "1"), ("b", "2")], v ∈ pyValues [("a", "1")]) :=
  ⟨by decide,
   (c1_new_entries_values_only [("a", "1")] [("a", "1"), ("b", "2")] "app_en_US.json" []
      (by decide)).1⟩

theorem record_missing_of_nil {S F : EntryDict} (file : String)
    (m : PyDict (List String)) (he : missing_for S F = []) :
    record_missing S file F m = m := by
  unfold record_missing
  rw [if_pos (by simp [he])]

theorem record_missing_of_set {S F : EntryDict} (file : String)
    (m : PyDict (List String)) (he : missing_for S F ≠ []) :
    record_missing S file F m = pySet m file (missing_for S F) := by
  unfold record_missing
  rw [if_neg (by simp [List.isEmpty_iff]; exact he)]

theorem missing_for_eq_nil_iff (S F : EntryDict) :
    missing_for S F = [] ↔ ∀ k ∈ pyKeys S, k ∈ pyKeys F := by
  simp only [missing_for, List.map_eq_nil_iff, List.filter_eq_nil_iff]
  constructor
  · intro h k hk
    simp only [pyKeys, List.mem_map] at hk
    obtain ⟨kv, hmem, hfst⟩ := hk
    have := h kv hmem
    have hhk : pyHasKey F kv.1 = true := by
      cases hb : pyHasKey F kv.1 with
      | true => rfl
      | false => exact absurd hb (by simpa using this)
    exact hfst ▸ (pyHasKey_iff_mem_keys F kv.1).mp hhk
  · intro h kv hmem
    have : kv.1 ∈ pyKeys F := h kv.1 (List.mem_map_of_mem Prod.fst hmem)
    simp [(pyHasKey_iff_mem_keys F kv.1).mpr this]

theorem mem_missing_for (S F : EntryDict) (s : String) :
    s ∈ missing_for S F ↔ ∃ kv, kv ∈ S ∧ kv.1 ∉ pyKeys F ∧ s = kv.1 ++ ": " ++ kv.2 := by
  simp only [missing_for, List.mem_map, List.mem_filter]
  constructor
  · rintro ⟨kv, ⟨hmem, hfilt⟩, hs⟩
    refine ⟨kv, hmem, ?_, hs.symm⟩
    intro hk
    have := (pyHasKey_iff_mem_keys F kv.1).mpr hk
    simp [this] at hfilt
  · rintro ⟨kv, hmem, hnk, hs⟩
    refine ⟨kv, ⟨hmem, ?_⟩, hs.symm⟩
    have : pyHasKey F kv.1 = false := by
      cases hb : pyHasKey F kv.1 with
      | false => rfl
      | true => exact absurd ((pyHasKey_iff_mem_keys F kv.1).mp hb) hnk
    simp [this]

/-- C2: for the snapshot mapping S and any file's mapping F, the missing
computation records no entry for that file iff every key of S is present in F
(values are never compared); when it records an entry, the entry is exactly
the list of strings "key: value" built from the S entries whose key is absent
from F. -/
theorem c2_missing_record_iff (S F : EntryDict) (file : String)
    (m : PyDict (List String)) (h : pyHasKey m file = false) :
    (pyHasKey (record_missing S file F m) file = false ↔ ∀ k ∈ pyKeys S, k ∈ pyKeys F)
    ∧ (∀ ms, pyGet (record_missing S file F m) file = some ms →
        ms = missing_for S F
        ∧ ∀ s, s ∈ ms ↔ ∃ kv, kv ∈ S ∧ kv.1 ∉ pyKeys F ∧ s = kv.1 ++ ": " ++ kv.2) := by
  constructor
  · constructor
    · intro hno
      by_contra hnot
      have hne : missing_for S F ≠ [] :=
        fun he => hnot ((missing_for_eq_nil_iff S F).mp he)
      rw [record_missing_of_set file m hne, pyHasKey_pySet_self] at hno
      exact Bool.noConfusion hno
    · intro hall
      rw [record_missing_of_nil file m ((missing_for_eq_nil_iff S F).mpr hall)]
      exact h
  · intro ms hget
    by_cases he : missing_for S F = []
    · rw [record_missing_of_nil file m he, pyGet_eq_none_of_not_hasKey m file h] at hget
      exact absurd hget (by simp)
    · rw [record_missing_of_set file m he, pyGet_pySet, if_pos rfl] at hget
      injection hget with hget
      exact ⟨hget.symm, fun s => hget ▸ mem_missing_for S F s⟩

/-- C2 witness: snapshot {a: 1, b: 2} against a file containing only key a;
an entry is recorded iff key b is missing, which it is. -/
theorem c2_witness :
    pyHasKey ([] : PyDict (List String)) "app_fr.json" = false
    ∧ ((pyHasKey (record_missing [("a", "1"), ("b", "2")] "app_fr.json" [("a", "9")] [])
          "app_fr.json" = false)
        ↔ ∀ k ∈ pyKeys [("a", "1"), ("b", "2")], k ∈ pyKeys [("a", "9")]) :=
  ⟨by decide,
   (c2_missing_record_iff [("a", "1"), ("b", "2")] [("a", "9")] "app_fr.json" []
      (by decide)).1⟩

/-! Delimited-text ("properties") parser, from `PropertiesParser` in
src/translator.py.  Each line is stripped; empty and comment lines are
skipped; the line is split on every occurrence of the separator (a fixed
class attribute, the character '='); the key is the part before the first
separator, stripped; the value is the remaining parts re-joined with the
separator, stripped of whitespace and then of surrounding double quotes;
entries with an empty value are not stored. -/

/-- Whitespace recognised by Python's str.strip() (ASCII range). -/
def isPyWs (c : Char) : Bool :=
  c == ' ' || c == '\t' || c == '\n' || c == '\r' || c == '\x0b' || c == '\x0c'

/-- Python str.strip(chars): remove all leading and trailing characters
satisfying the predicate. -/
def stripChars (p : Char → Bool) (s : String) : String :=
  String.mk (List.reverse (List.dropWhile p (List.reverse (List.dropWhile p s.data))))

/-- Python str.strip() with no argument: strip whitespace at both ends. -/
def pyStrip (s : String) : String := stripChars isPyWs s

/-- Python str.strip(chr(34)): remove all leading and trailing double
quotes. -/
def pyStripQuote (s : String) : String := stripChars (fun c => c == '\"') s

/-- Python str.startswith for the one-character comment marker of
`PropertiesParser` (comment_char, the character '#'). -/
def startsWithHash (s : String) : Bool :=
  match s.data with
  | [] => false
  | c :: _ => c == '#'

/-- Python str.split(sep) for a one-character separator: cut at every
occurrence of the separator; n occurrences yield n+1 (possibly empty)
parts. -/
def splitOnSep (sep : Char) : List Char → List (List Char)
  | [] => [[]]
  | c :: rest =>
    if c = sep then [] :: splitOnSep sep rest
    else
      match splitOnSep sep rest with
      | h :: t => (c :: h) :: t
      | [] => [[c]]

/-- Python sep.join(parts) for a one-character separator. -/
def joinSep (sep : Char) : List (List Char) → List Char
  | [] => []
  | [x] => x
  | x :: xs => x ++ sep :: joinSep sep xs

/-- Characters of the line before the first occurrence of the separator
(the whole line if the separator is absent). -/
def beforeFirstSep (sep : Char) (l : List Char) : List Char :=
  List.takeWhile (fun c => !(c == sep)) l

/-- Characters of the line after the first occurrence of the separator
(empty if the separator is absent). -/
def afterFirstSep (sep : Char) (l : List Char) : List Char :=
  List.drop 1 (List.dropWhile (fun c => !(c == sep)) l)

/-- Key computed by `PropertiesParser.parse_to_dict` from a stripped line:
`key_value_split[0].strip()`. -/
def lineKey (l : String) : String :=
  pyStrip (String.mk (List.headD (splitOnSep '=' l.data) []))

/-- Value computed by `PropertiesParser.parse_to_dict` from a stripped line:
`self.separator.join(key_value_split[1:]).strip().strip(chr(34))`. -/
def lineValue (l : String) : String :=
  pyStripQuote (pyStrip (String.mk (joinSep '=' (List.tail (splitOnSep '=' l.data)))))

/-- One line of `PropertiesParser.parse_to_dict`: the entry the line stores,
or none when the line is skipped (empty or comment) or dropped (empty value,
which also covers separator-less lines). -/
def parseLine (line : String) : Option (String × String) :=
  if pyStrip line = "" then none
  else if startsWithHash (pyStrip line) then none
  else if lineValue (pyStrip line) = "" then none
  else some (lineKey (pyStrip line), lineValue (pyStrip line))

/-- Effect of one line on the accumulated per-file dict
(`current_file_key_val[key] = value` guarded by the line checks). -/
def processLine (acc : EntryDict) (line : String) : EntryDict :=
  match parseLine line with
  | none => acc
  | some kv => pySet acc kv.1 kv.2

/-- The per-file loop of `PropertiesParser.parse_to_dict`: fold the lines of
one file into its entry mapping. -/
def PropertiesParser_parse_file (lines : List String) : EntryDict :=
  List.foldl processLine [] lines

theorem splitOnSep_ne_nil (sep : Char) (l : List Char) : splitOnSep sep l ≠ [] := by
  cases l with
  | nil => simp [splitOnSep]
  | cons c rest =>
    by_cases h : c = sep
    · simp [splitOnSep, h]
    · simp only [splitOnSep, if_neg h]
      cases splitOnSep sep rest <;> simp

theorem joinSep_splitOnSep (sep : Char) (l : List Char) :
    joinSep sep (splitOnSep sep l) = l := by
  induction l with
  | nil => rfl
  | cons c rest ih =>
    by_cases h : c = sep
    · rw [splitOnSep, if_pos h]
      cases hr : splitOnSep sep rest with
      | nil => exact absurd hr (splitOnSep_ne_nil sep rest)
      | cons rh rt =>
        rw [hr] at ih
        simp [joinSep, ih, h]
    · rw [splitOnSep, if_neg h]
      cases hr : splitOnSep sep rest with
      | nil => exact absurd hr (splitOnSep_ne_nil sep rest)
      | cons rh rt =>
        rw [hr] at ih
        cases rt with
        | nil => simp only [joinSep] at ih ⊢; rw [ih]
        | cons x xs =>
          simp only [joinSep] at ih ⊢
          rw [List.cons_append, ih]

theorem headD_splitOnSep (sep : Char) (l : List Char) :
    List.headD (splitOnSep sep l) [] = beforeFirstSep sep l := by
  induction l with
  | nil => rfl
  | cons c rest ih =>
    by_cases h : c = sep
    · simp [splitOnSep, beforeFirstSep, h]
    · rw [splitOnSep, if_neg h]
      cases hr : splitOnSep sep rest with
      | nil => exact absurd hr (splitOnSep_ne_nil sep rest)
      | cons rh rt =>
        rw [hr] at ih
        simp only [List.headD] at ih
        have hb : (c == sep) = false := by simpa using h
        simp [beforeFirstSep, List.takeWhile, hb, ih]

theorem joinSep_tail_splitOnSep (sep : Char) (l : List Char) :
    joinSep sep (List.tail (splitOnSep sep l)) = afterFirstSep sep l := by
  induction l with
  | nil => rfl
  | cons c rest ih =>
    by_cases h : c = sep
    · rw [splitOnSep, if_pos h]
      simp only [List.tail]
      rw [joinSep_splitOnSep]
      simp [afterFirstSep, List.dropWhile, h]
    · rw [splitOnSep, if_neg h]
      cases hr : splitOnSep sep rest with
      | nil => exact absurd hr (splitOnSep_ne_nil sep rest)
      | cons rh rt =>
        rw [hr] at ih
        simp only [List.tail] at ih ⊢
        rw [ih]
        have hb : (c == sep) = false := by simpa using h
        simp [afterFirstSep, List.dropWhile, hb]

theorem afterFirstSep_of_not_mem (sep : Char) (l : List Char)
    (h : sep ∉ l) : afterFirstSep sep l = [] := by
  have hd : List.dropWhile (fun c => !(c == sep)) l = [] := by
    rw [List.dropWhile_eq_nil_iff]
    intro c hc
    have : ¬ c = sep := fun e => h (e ▸ hc)
    simp [this]
  simp [afterFirstSep, hd]

theorem lineKey_eq_firstOcc (l : String) :
    lineKey l = pyStrip (String.mk (beforeFirstSep '=' l.data)) := by
  unfold lineKey
  rw [headD_splitOnSep]

theorem lineValue_eq_firstOcc (l : String) :
    lineValue l = pyStripQuote (pyStrip (String.mk (afterFirstSep '=' l.data))) := by
  unfold lineValue
  rw [joinSep_tail_splitOnSep]

theorem lineValue_of_no_sep (l : String) (h : '=' ∉ l.data) : lineValue l = "" := by
  rw [lineValue_eq_firstOcc, afterFirstSep_of_not_mem '=' l.data h]
  rfl

/-- C6: a stripped-empty line, a comment line (first non-whitespace character
the hash mark), and a line without the separator all leave the mapping
unchanged, as does any line whose computed value is empty; a line that is
stored is stored as its key (text before the first separator, stripped)
mapped to its value (text after the first separator re-joined, stripped of
whitespace and surrounding quotes), and that value is non-empty. -/
theorem c6_properties_line_semantics (line : String) (acc : EntryDict) :
    (pyStrip line = "" → processLine acc line = acc)
    ∧ (startsWithHash (pyStrip line) = true → processLine acc line = acc)
    ∧ ('=' ∉ (pyStrip line).data → processLine acc line = acc)
    ∧ (lineValue (pyStrip line) = "" → processLine acc line = acc)
    ∧ (∀ k v, parseLine line = some (k, v) →
        processLine acc line = pySet acc k v
        ∧ k = pyStrip (String.mk (beforeFirstSep '=' (pyStrip line).data))
        ∧ v = pyStripQuote (pyStrip (String.mk (afterFirstSep '=' (pyStrip line).data)))
        ∧ v ≠ "") := by
  refine ⟨?_, ?_, ?_, ?_, ?_⟩
  · intro h
    simp [processLine, parseLine, h]
  · intro h
    by_cases he : pyStrip line = "" <;> simp [processLine, parseLine, he, h]
  · intro h
    have hv := lineValue_of_no_sep (pyStrip line) h
    by_cases he : pyStrip line = "" <;>
      by_cases hc : startsWithHash (pyStrip line) = true <;>
        simp [processLine, parseLine, he, hc, hv]
  · intro hv
    by_cases he : pyStrip line = "" <;>
      by_cases hc : startsWithHash (pyStrip line) = true <;>
        simp [processLine, parseLine, he, hc, hv]
  · intro k v hkv
    by_cases he : pyStrip line = ""
    · simp [parseLine, he] at hkv
    · by_cases hc : startsWithHash (pyStrip line) = true
      · simp [parseLine, he, hc] at hkv
      · by_cases hv : lineValue (pyStrip line) = ""
        · simp [parseLine, he, hc, hv] at hkv
        · have hres : parseLine line
              = some (lineKey (pyStrip line), lineValue (pyStrip line)) := by
            simp [parseLine, he, hc, hv]
          rw [hres] at hkv
          injection hkv with hkv
          have hk : k = lineKey (pyStrip line) := congrArg Prod.fst hkv.symm
          have hv2 : v = lineValue (pyStrip line) := congrArg Prod.snd hkv.symm
          refine ⟨?_, ?_, ?_, ?_⟩
          · simp [processLine, hres, hk, hv2]
          · rw [hk, lineKey_eq_firstOcc]
          · rw [hv2, lineValue_eq_firstOcc]
          · rw [hv2]; exact hv

/-- C6 witness: the line with key "key" and quoted value "a=b" (the value
contains a further separator, so the re-join matters) is stored. -/
theorem c6_witness :
    parseLine "key = \"a=b\"" = some ("key", "a=b")
    ∧ processLine [] "key = \"a=b\"" = pySet [] "key" "a=b" :=
  ⟨by decide,
   ((c6_properties_line_semantics "key = \"a=b\"" []).2.2.2.2 "key" "a=b" (by decide)).1⟩

theorem foldl_processLine_eq (lines : List String) (acc : EntryDict) :
    List.foldl processLine acc lines
      = List.foldl (fun d kv => pySet d kv.1 kv.2) acc (List.filterMap parseLine lines) := by
  induction lines generalizing acc with
  | nil => rfl
  | cons x xs ih =>
    cases h : parseLine x with
    | none => simp [List.filterMap_cons, h, List.foldl_cons, processLine, ih]
    | some kv => simp [List.filterMap_cons, h, List.foldl_cons, processLine, ih]

theorem pyGet_foldl_pySet {α : Type} (ps : List (String × α)) (acc : PyDict α) (k : String) :
    pyGet (List.foldl (fun d kv => pySet d kv.1 kv.2) acc ps) k
      = Option.or
          (Option.map Prod.snd (List.find? (fun kv => kv.1 == k) (List.reverse ps)))
          (pyGet acc k) := by
  induction ps generalizing acc with
  | nil => simp
  | cons p t ih =>
    rw [List.foldl_cons, ih, List.reverse_cons, List.find?_append]
    cases hf : List.find? (fun kv => kv.1 == k) (List.reverse t) with
    | some q => simp [Option.or]
    | none =>
      by_cases hp : p.1 = k
      · simp [List.find?, hp, pyGet_pySet]
      · have hb : (p.1 == k) = false := by simpa using hp
        simp [List.find?, hb, pyGet_pySet, hp]

theorem mem_pyKeys_pySet {α : Type} (d : PyDict α) (k : String) (v : α) (x : String) :
    x ∈ pyKeys (pySet d k v) ↔ x ∈ pyKeys d ∨ x = k := by
  induction d with
  | nil => simp [pySet, pyKeys]
  | cons kv rest ih =>
    by_cases hk : kv.1 = k
    · simp [pySet, pyKeys, hk]
      tauto
    · simp only [pySet, if_neg hk, pyKeys, List.map_cons, List.mem_cons]
      rw [show List.map Prod.fst (pySet rest k v) = pyKeys (pySet rest k v) from rfl, ih]
      simp [pyKeys]
      tauto

theorem nodup_pyKeys_pySet {α : Type} (d : PyDict α) (k : String) (v : α)
    (h : (pyKeys d).Nodup) : (pyKeys (pySet d k v)).Nodup := by
  induction d with
  | nil => simp [pySet, pyKeys]
  | cons kv rest ih =>
    simp only [pyKeys, List.map_cons, List.nodup_cons] at h
    by_cases hk : kv.1 = k
    · simp only [pySet, if_pos hk, pyKeys, List.map_cons, List.nodup_cons]
      exact ⟨hk ▸ h.1, h.2⟩
    · simp only [pySet, if_neg hk, pyKeys, List.map_cons, List.nodup_cons]
      refine ⟨?_, ih h.2⟩
      rw [show List.map Prod.fst (pySet rest k v) = pyKeys (pySet rest k v) from rfl,
        mem_pyKeys_pySet]
      rintro (hm | he)
      · exact h.1 (by simpa [pyKeys] using hm)
      · exact hk he

theorem nodup_pyKeys_foldl {α : Type} (ps : List (String × α)) (acc : PyDict α)
    (h : (pyKeys acc).Nodup) :
    (pyKeys (List.foldl (fun d kv => pySet d kv.1 kv.2) acc ps)).Nodup := by
  induction ps generalizing acc with
  | nil => exact h
  | cons p t ih => exact ih (pySet acc p.1 p.2) (nodup_pyKeys_pySet acc p.1 p.2 h)

/-- C9: in a parsed delimited-text file each key occurs at most once, and its
value is the one from the last stored (non-empty-value) line with that key:
looking the key up equals taking the last entry produced by the line parser.
-/
theorem c9_last_occurrence_wins (lines : List String) (k : String) :
    (pyKeys (PropertiesParser_parse_file lines)).Nodup
    ∧ pyGet (PropertiesParser_parse_file lines) k
        = Option.map Prod.snd
            (List.find? (fun kv => kv.1 == k)
              (List.reverse (List.filterMap parseLine lines))) := by
  constructor
  · rw [PropertiesParser_parse_file, foldl_processLine_eq]
    exact nodup_pyKeys_foldl _ _ (by simp [pyKeys])
  · rw [PropertiesParser_parse_file, foldl_processLine_eq, pyGet_foldl_pySet]
    simp [pyGet]

/-! Bundle, from the class `Bundle` in src/translator.py: default-locale
resolution and the snapshot-file lifecycle.

The resolution uses `re.match` with the interpolated pattern
".*_<default_locale>(?!(.*snapshot)).*".  It is modelled for patterns whose
interpolated locale consists of literal characters and the regex
any-character wildcard '.' (the only regex metacharacter a locale string
such as "en_US" or a dotted variant can realistically contribute):
`re.match` succeeds iff some occurrence of "_<locale>" in the file name is
not followed, at or after the end of that occurrence, by the literal text
"snapshot" (the negative lookahead). -/

/-- One pattern character against one subject character: '.' in the
interpolated locale is the regex any-character wildcard, everything else is
literal. -/
def charMatch (p c : Char) : Bool := p == '.' || p == c

/-- The pattern matches at the head of the subject (subject may be longer). -/
def matchesHere (s pat : List Char) : Bool :=
  match s, pat with
  | _, [] => true
  | [], _ :: _ => false
  | c :: cs, p :: ps => charMatch p c && matchesHere cs ps

/-- The pattern matches inside the subject at offset i. -/
def matchAt (s pat : List Char) (i : Nat) : Bool := matchesHere (List.drop i s) pat

/-- The pattern matches at some offset at or after lo, i.e. the lookahead
text ".*snapshot" would match the rest of the subject. -/
def existsMatchFrom (s pat : List Char) (lo : Nat) : Bool :=
  List.any (List.range (s.length + 1)) (fun j => decide (lo ≤ j) && matchAt s pat j)

/-- Result of `re.match(rf'.*_{default_locale}(?!(.*snapshot)).*', file)`
being truthy: some occurrence of "_<locale>" has no "snapshot" at or after
its end. -/
def localeMatch (locale file : String) : Bool :=
  List.any (List.range (file.data.length + 1)) (fun i =>
    matchAt file.data ('_' :: locale.data) i
    && !(existsMatchFrom file.data "snapshot".data (i + 1 + locale.data.length)))

/-- Substring test used to state the spec's "contains the substring"
match policy (purely literal, no wildcard). -/
def strContainsSub (s pat : String) : Bool :=
  List.any (List.range (s.data.length + 1))
    (fun i => List.take pat.data.length (List.drop i s.data) == pat.data)

/-- A bundle: directory path, extension, tracked file identifiers
(`self.files`, a set mutated only by adding the snapshot identifier), and
the default locale (None defaults to "en_US" in `__init__`). -/
structure Bundle where
  path : String
  extension : String
  files : List String
  default_locale : String
deriving DecidableEq

deriving instance DecidableEq for Except

/-- Message of the sys.exit for more than one regex match (the Python
message interpolates the list of matches). -/
def multipleMatchError (b : Bundle) (ms : List String) : String :=
  "Bundle: There were multiple regex matches of _" ++ b.default_locale
    ++ " in " ++ b.path ++ ": " ++ String.intercalate ", " ms
    ++ ". Expecting only a single match"

/-- Message of the sys.exit for zero regex matches. -/
def noMatchError (b : Bundle) : String :=
  "Bundle: Expected default locale file to match regex .*_" ++ b.default_locale
    ++ " but no files in " ++ b.path ++ " matched"

/-- The method `Bundle.get_default_locale_file`: collect the files matching
the locale regex; more than one match or no match is a fatal exit, a unique
match is returned. -/
def get_default_locale_file (b : Bundle) : Except String String :=
  let locale_regex_match := List.filter (fun f => localeMatch b.default_locale f) b.files
  if 1 < locale_regex_match.length then
    Except.error (multipleMatchError b locale_regex_match)
  else
    match locale_regex_match with
    | [] => Except.error (noMatchError b)
    | m :: _ => Except.ok m

/-- Filesystem model: mapping from path to file content. -/
abbrev FS := PyDict String

/-- Body of `Bundle.generate_snapshot_file` once the default-locale file is
resolved: the snapshot identifier is the default-locale identifier with
".snapshot" appended; if no file exists there it is created as a copy of the
default-locale file (whose absence would raise FileNotFoundError); the
identifier is added to the bundle's file set if not yet tracked, and
returned. -/
def snapshot_step (fs : FS) (b : Bundle) (default_locale_path : String) :
    Except String (String × FS × Bundle) :=
  if pyHasKey fs (default_locale_path ++ ".snapshot") then
    Except.ok (default_locale_path ++ ".snapshot", fs,
      { b with files :=
          if List.contains b.files (default_locale_path ++ ".snapshot") then b.files
          else b.files ++ [default_locale_path ++ ".snapshot"] })
  else
    match pyGet fs default_locale_path with
    | none => Except.error ("FileNotFoundError: " ++ default_locale_path)
    | some content =>
      Except.ok (default_locale_path ++ ".snapshot",
        pySet fs (default_locale_path ++ ".snapshot") content,
        { b with files :=
            if List.contains b.files (default_locale_path ++ ".snapshot") then b.files
            else b.files ++ [default_locale_path ++ ".snapshot"] })

/-- The method `Bundle.generate_snapshot_file`: resolve the default-locale
file (which may exit fatally), then run the snapshot step. -/
def generate_snapshot_file (fs : FS) (b : Bundle) : Except String (String × FS × Bundle) :=
  match get_default_locale_file b with
  | Except.error e => Except.error e
  | Except.ok default_locale_path => snapshot_step fs b default_locale_path

theorem get_default_locale_file_ok_iff (b : Bundle) (d : String) :
    get_default_locale_file b = Except.ok d
      ↔ List.filter (fun f => localeMatch b.default_locale f) b.files = [d] := by
  unfold get_default_locale_file
  cases hm : List.filter (fun f => localeMatch b.default_locale f) b.files with
  | nil => simp
  | cons m t =>
    cases t with
    | nil => simp
    | cons m2 t2 =>
      rw [if_pos (by simp [List.length_cons])]
      simp

theorem matchAt_false_of_ge_length (s pat : List Char) (j : Nat)
    (hp : pat ≠ []) (hj : s.length ≤ j) : matchAt s pat j = false := by
  unfold matchAt
  rw [List.drop_eq_nil_of_le hj]
  cases pat with
  | nil => exact absurd rfl hp
  | cons p ps => rfl

theorem localeMatch_iff (locale file : String) :
    localeMatch locale file = true ↔
      ∃ i, matchAt file.data ('_' :: locale.data) i = true
        ∧ ∀ j, i + 1 + locale.data.length ≤ j →
            matchAt file.data "snapshot".data j = false := by
  unfold localeMatch
  rw [List.any_eq_true]
  constructor
  · rintro ⟨i, hmem, hcond⟩
    rw [Bool.and_eq_true] at hcond
    refine ⟨i, hcond.1, ?_⟩
    intro j hj
    by_cases hjr : j ≤ file.data.length
    · have hex : existsMatchFrom file.data "snapshot".data (i + 1 + locale.data.length)
          = false := by
        cases hb : existsMatchFrom file.data "snapshot".data (i + 1 + locale.data.length)
        · rfl
        · rw [hb] at hcond; exact absurd hcond.2 (by simp)
      unfold existsMatchFrom at hex
      rw [List.any_eq_false] at hex
      have := hex j (by rw [List.mem_range]; omega)
      cases hb : matchAt file.data "snapshot".data j
      · rfl
      · exfalso
        apply this
        rw [Bool.and_eq_true]
        exact ⟨by simpa using hj, hb⟩
    · exact matchAt_false_of_ge_length file.data "snapshot".data j (by simp) (by omega)
  · rintro ⟨i, hmA, hall⟩
    have hib : i ≤ file.data.length := by
      by_contra hgt
      have := matchAt_false_of_ge_length file.data ('_' :: locale.data) i (by simp) (by omega)
      rw [this] at hmA
      exact absurd hmA (by simp)
    refine ⟨i, by rw [List.mem_range]; omega, ?_⟩
    rw [Bool.and_eq_true]
    refine ⟨hmA, ?_⟩
    have hex : existsMatchFrom file.data "snapshot".data (i + 1 + locale.data.length)
        = false := by
      unfold existsMatchFrom
      rw [List.any_eq_false]
      intro j hjmem
      by_cases hj : i + 1 + locale.data.length ≤ j
      · rw [hall j hj, Bool.and_false]
        simp
      · rw [decide_eq_false hj, Bool.false_and]
        simp
    rw [hex]
    rfl

/-- C3 counterexample bundle: its only file carries the substring "snapshot"
before the locale marker. -/
def snapCexBundle : Bundle :=
  { path := "/app/locales", extension := "json",
    files := ["snapshot_app_en_US.json"], default_locale := "en_US" }

/-- C3 counterexample: the claimed match policy is "contains _<locale> and
does not contain the substring snapshot", but the lookahead in the code only
excludes "snapshot" after the locale marker, so a file named
snapshot_app_en_US.json is counted as a match and even returned as the
default locale file instead of producing the no-match fatal error. -/
theorem c3_counterexample :
    strContainsSub "snapshot_app_en_US.json" "snapshot" = true
    ∧ localeMatch "en_US" "snapshot_app_en_US.json" = true
    ∧ get_default_locale_file snapCexBundle = Except.ok "snapshot_app_en_US.json" :=
  ⟨by decide, by decide, by decide⟩

/-- C3 amended: a file is counted as a match exactly when some occurrence of
"_<default_locale>" in its name (a '.' in the locale matching any character)
has no occurrence of "snapshot" at or after the end of the occurrence; with
zero matches the run exits with the no-default-locale-file error, with more
than one match it exits with the ambiguous-match error, and with exactly one
match that file identifier is returned. -/
theorem c3_match_policy_and_resolution (b : Bundle) :
    (∀ f : String, localeMatch b.default_locale f = true ↔
      ∃ i, matchAt f.data ('_' :: b.default_locale.data) i = true
        ∧ ∀ j, i + 1 + b.default_locale.data.length ≤ j →
            matchAt f.data "snapshot".data j = false)
    ∧ (∀ ms, List.filter (fun f => localeMatch b.default_locale f) b.files = ms →
        (1 < ms.length → get_default_locale_file b = Except.error (multipleMatchError b ms))
        ∧ (ms = [] → get_default_locale_file b = Except.error (noMatchError b))
        ∧ (∀ f, ms = [f] → get_default_locale_file b = Except.ok f)) := by
  constructor
  · intro f
    exact localeMatch_iff b.default_locale f
  · intro ms hms
    refine ⟨?_, ?_, ?_⟩
    · intro hlen
      unfold get_default_locale_file
      rw [hms, if_pos hlen]
    · intro hnil
      rw [hnil] at hms
      unfold get_default_locale_file
      rw [hms]
      simp
    · intro f hf
      rw [hf] at hms
      exact (get_default_locale_file_ok_iff b f).mpr hms

/-- C3 witness: a well-formed bundle with a unique default-locale file. -/
theorem c3_witness :
    get_default_locale_file
      { path := "/app/locales", extension := "json",
        files := ["app_en_US.json", "app_fr.json"], default_locale := "en_US" }
      = Except.ok "app_en_US.json" :=
  ((c3_match_policy_and_resolution
      { path := "/app/locales", extension := "json",
        files := ["app_en_US.json", "app_fr.json"], default_locale := "en_US" }).2
    ["app_en_US.json"] (by decide)).2.2 "app_en_US.json" rfl

theorem generate_snapshot_file_eq_step (fs : FS) (b : Bundle) (d : String)
    (hd : get_default_locale_file b = Except.ok d) :
    generate_snapshot_file fs b = snapshot_step fs b d := by
  unfold generate_snapshot_file
  rw [hd]

theorem pyGet_isSome_of_hasKey {α : Type} (d : PyDict α) (k : String)
    (h : pyHasKey d k = true) : ∃ v, pyGet d k = some v := by
  induction d with
  | nil => simp [pyHasKey] at h
  | cons kv rest ih =>
    by_cases hk : kv.1 = k
    · exact ⟨kv.2, by simp [pyGet, hk]⟩
    · simp only [pyHasKey, if_neg hk] at h
      obtain ⟨v, hv⟩ := ih h
      exact ⟨v, by simp [pyGet, hk, hv]⟩

theorem snapshot_step_stable (fs1 : FS) (b1 : Bundle) (d : String)
    (hsp : pyHasKey fs1 (d ++ ".snapshot") = true)
    (hcont : List.contains b1.files (d ++ ".snapshot") = true) :
    snapshot_step fs1 b1 d = Except.ok (d ++ ".snapshot", fs1, b1) := by
  unfold snapshot_step
  rw [if_pos hsp, if_pos hcont]

/-- C4 counterexample bundle: the dotted default locale "q.json.s" is spliced
into the regex, where each '.' matches any character, letting the pattern
"_q.json.s" also match across the ".snapshot" suffix of the generated
snapshot identifier. -/
def c4Bundle : Bundle :=
  { path := "/p", extension := "json",
    files := ["a_q.json.sb_q.json"], default_locale := "q.json.s" }

/-- Filesystem for the C4 counterexample before the first call. -/
def c4FS : FS := [("a_q.json.sb_q.json", "k = v")]

/-- Filesystem after the first call: the snapshot was created as a copy. -/
def c4FS1 : FS :=
  [("a_q.json.sb_q.json", "k = v"), ("a_q.json.sb_q.json.snapshot", "k = v")]

/-- Bundle after the first call: the snapshot identifier is tracked. -/
def c4Bundle1 : Bundle :=
  { path := "/p", extension := "json",
    files := ["a_q.json.sb_q.json", "a_q.json.sb_q.json.snapshot"],
    default_locale := "q.json.s" }

/-- C4 counterexample: the first call creates the snapshot and returns its
identifier, but the second call does not return the same identifier: the
snapshot file now also matches the default-locale regex, so the call aborts
with the ambiguous-match fatal error.  generate_snapshot_file is therefore
not idempotent for every bundle. -/
theorem c4_counterexample :
    generate_snapshot_file c4FS c4Bundle
      = Except.ok ("a_q.json.sb_q.json.snapshot", c4FS1, c4Bundle1)
    ∧ generate_snapshot_file c4FS1 c4Bundle1
      = Except.error (multipleMatchError c4Bundle1
          ["a_q.json.sb_q.json", "a_q.json.sb_q.json.snapshot"]) :=
  ⟨by decide, by decide⟩

/-- C4 amended: whenever the snapshot identifier itself does not match the
default-locale pattern (true for every ordinary locale, where "snapshot"
follows each locale occurrence in the generated name), a successful call
returns the default-locale identifier with ".snapshot" appended, the first
call copies the default-locale file's content verbatim when the snapshot is
absent, and a repeated call performs no filesystem write and returns the
identical identifier, filesystem and bundle. -/
theorem c4_snapshot_idempotent (fs fs1 : FS) (b b1 : Bundle) (d p : String)
    (hd : get_default_locale_file b = Except.ok d)
    (hm : localeMatch b.default_locale (d ++ ".snapshot") = false)
    (h1 : generate_snapshot_file fs b = Except.ok (p, fs1, b1)) :
    p = d ++ ".snapshot"
    ∧ generate_snapshot_file fs1 b1 = Except.ok (p, fs1, b1)
    ∧ (pyHasKey fs p = false → pyGet fs1 p = pyGet fs d) := by
  have hfil : List.filter (fun f => localeMatch b.default_locale f) b.files = [d] :=
    (get_default_locale_file_ok_iff b d).mp hd
  have hstep : snapshot_step fs b d = Except.ok (p, fs1, b1) := by
    rw [← generate_snapshot_file_eq_step fs b d hd]
    exact h1
  have hfil2 : List.filter (fun f => localeMatch b.default_locale f)
      (if List.contains b.files (d ++ ".snapshot") then b.files
       else b.files ++ [d ++ ".snapshot"]) = [d] := by
    by_cases hcon : List.contains b.files (d ++ ".snapshot") = true
    · rw [if_pos hcon]
      exact hfil
    · rw [if_neg hcon, List.filter_append, hfil]
      simp [hm]
  have hcont1 : List.contains
      (if List.contains b.files (d ++ ".snapshot") then b.files
       else b.files ++ [d ++ ".snapshot"]) (d ++ ".snapshot") = true := by
    by_cases hcon : List.contains b.files (d ++ ".snapshot") = true
    · rw [if_pos hcon]
      exact hcon
    · rw [if_neg hcon]
      simp
  have hb1 : get_default_locale_file
      { b with files :=
          if List.contains b.files (d ++ ".snapshot") then b.files
          else b.files ++ [d ++ ".snapshot"] } = Except.ok d :=
    (get_default_locale_file_ok_iff _ d).mpr hfil2
  by_cases hsp : pyHasKey fs (d ++ ".snapshot") = true
  · rw [snapshot_step, if_pos hsp] at hstep
    injection hstep with hstep
    have hp := congrArg Prod.fst hstep
    have hfs := congrArg (fun x => x.2.1) hstep
    have hb := congrArg (fun x => x.2.2) hstep
    simp only at hp hfs hb
    subst hp
    subst hfs
    subst hb
    refine ⟨rfl, ?_, ?_⟩
    · rw [generate_snapshot_file_eq_step fs _ d hb1,
        snapshot_step_stable fs _ d hsp hcont1]
    · intro hfalse
      rw [hsp] at hfalse
      exact Bool.noConfusion hfalse
  · cases hget : pyGet fs d with
    | none =>
      rw [snapshot_step, if_neg hsp, hget] at hstep
      exact absurd hstep (by simp)
    | some content =>
      rw [snapshot_step, if_neg hsp, hget] at hstep
      injection hstep with hstep
      have hp := congrArg Prod.fst hstep
      have hfs := congrArg (fun x => x.2.1) hstep
      have hb := congrArg (fun x => x.2.2) hstep
      simp only at hp hfs hb
      subst hp
      subst hfs
      subst hb
      refine ⟨rfl, ?_, ?_⟩
      · rw [generate_snapshot_file_eq_step _ _ d hb1,
          snapshot_step_stable _ _ d (pyHasKey_pySet_self fs (d ++ ".snapshot") content)
            hcont1]
      · intro _
        rw [pyGet_pySet, if_pos rfl]

/-- Bundle for the C4 witness (ordinary locale). -/
def c4wBundle : Bundle :=
  { path := "/p", extension := "json",
    files := ["app_en_US.json"], default_locale := "en_US" }

/-- Filesystem for the C4 witness before the first call. -/
def c4wFS : FS := [("app_en_US.json", "k = v")]

/-- Filesystem after the first call of the C4 witness. -/
def c4wFS1 : FS := [("app_en_US.json", "k = v"), ("app_en_US.json.snapshot", "k = v")]

/-- Bundle after the first call of the C4 witness. -/
def c4wBundle1 : Bundle :=
  { path := "/p", extension := "json",
    files := ["app_en_US.json", "app_en_US.json.snapshot"], default_locale := "en_US" }

/-- C4 witness: an ordinary bundle whose first call creates the snapshot;
the second call changes nothing and returns the same identifier. -/
theorem c4_witness :
    "app_en_US.json.snapshot" = "app_en_US.json" ++ ".snapshot"
    ∧ generate_snapshot_file c4wFS1 c4wBundle1
        = Except.ok ("app_en_US.json.snapshot", c4wFS1, c4wBundle1)
    ∧ (pyHasKey c4wFS "app_en_US.json.snapshot" = false →
        pyGet c4wFS1 "app_en_US.json.snapshot" = pyGet c4wFS "app_en_US.json") :=
  c4_snapshot_idempotent c4wFS c4wFS1 c4wBundle c4wBundle1 "app_en_US.json"
    "app_en_US.json.snapshot" (by decide) (by decide) (by decide)

/-! JSON parser, from `JsonParser` in src/translator.py, and the dispatch of
`TranslationGenerator.process_bundle`. -/

/-- The loop of `JsonParser.parse_to_dict`: for each file,
`self.dict_representation[file] = json.loads(f.read())`.  Crucially,
`dict_representation = {}` is a class attribute of JsonParser and the loop
mutates it through item assignment without rebinding, so a second parser
instance created in the same process run keeps the entries of the first; the
accumulated class-level dict is threaded here as `dict_representation`.
`loads` abstracts the structural JSON parse of a file's content: it maps a
file identifier to the entry mapping parsed from that file. -/
def JsonParser_parse_to_dict (dict_representation : PyDict EntryDict)
    (loads : String → EntryDict) (files : List String) : PyDict EntryDict :=
  List.foldl (fun acc file => pySet acc file (loads file)) dict_representation files

/-- C5: the claim says the parsed mapping handed to the diff computations for
a bundle contains exactly that bundle's file identifiers.  It does not: the
class-level dict is shared, so after parsing bundle ["a.json"] and then
bundle ["b.json"] in the same run, the second parsed mapping still contains
"a.json", and the diff computations for the second bundle iterate over it. -/
theorem c5_parser_state_leak :
    pyKeys (JsonParser_parse_to_dict
        (JsonParser_parse_to_dict [] (fun _ => []) ["a.json"])
        (fun _ => []) ["b.json"]) = ["a.json", "b.json"]
    ∧ pyHasKey (JsonParser_parse_to_dict
        (JsonParser_parse_to_dict [] (fun _ => []) ["a.json"])
        (fun _ => []) ["b.json"]) "a.json" = true :=
  ⟨by decide, by decide⟩

/-- Python dynamic error raised by the unsupported-extension branch of
`TranslationGenerator.process_bundle`. -/
inductive PyError : Type
  | nameError (missing : String)
deriving DecidableEq

/-- Dispatch of `TranslationGenerator.process_bundle` on the bundle's
extension.  The final else is
raise(f'\x7bwhoami\x7d: Unsupported bundle extension \x7bbundle.extension\x7d'):
the name `whoami` is unbound in that method body (the class attribute is
only reachable as `self.whoami`), so evaluating the f-string raises
NameError("name 'whoami' is not defined") before any message mentioning the
extension is built; even with the name fixed, raising a plain str would raise
TypeError.  The ok value records which parser the dispatch selects. -/
def process_bundle_dispatch (b : Bundle) : Except PyError String :=
  if b.extension = "json" then Except.ok "JsonParser"
  else if b.extension = "properties" then Except.ok "PropertiesParser"
  else Except.error (PyError.nameError "whoami")

/-- C7: a bundle with an unsupported extension aborts the run immediately,
but with a NameError about the unbound name whoami; the abort message never
contains the offending extension, contrary to the claimed descriptive
unsupported-format error. -/
theorem c7_unsupported_extension_name_error :
    process_bundle_dispatch
        { path := "/p", extension := "txt", files := ["app_en_US.txt"],
          default_locale := "en_US" }
      = Except.error (PyError.nameError "whoami")
    ∧ strContainsSub "whoami" "txt" = false :=
  ⟨by decide, by decide⟩

/-! Manifest reporter, from `Reconciliator.print_manifest` in
src/translator.py. -/

/-- Python sorted() on a list of strings: stable sort, lexicographic by code
point. -/
def pySorted (l : List String) : List String :=
  List.mergeSort l (fun a b => decide (a ≤ b))

/-- The two loops of `Reconciliator.print_manifest`: for each accumulated
entry, `self.data["added"] = self.data.get("added") or []` followed by
appending the single-entry mapping with sorted strings, then the same for
"missing"; `self.data` starts empty for the single Reconciliator of a run. -/
def print_manifest_data (missing added : PyDict (List String)) :
    PyDict (List (String × List String)) :=
  List.foldl
    (fun data kv =>
      pySet data "missing" (pyGetD data "missing" [] ++ [(kv.1, pySorted kv.2)]))
    (List.foldl
      (fun data kv =>
        pySet data "added" (pyGetD data "added" [] ++ [(kv.1, pySorted kv.2)]))
      [] added)
    missing

/-- The print guard of `Reconciliator.print_manifest`: for either output
format the serialization is printed only when self.data is truthy
(non-empty). -/
def manifest_emitted (missing added : PyDict (List String)) : Bool :=
  !(List.isEmpty (print_manifest_data missing added))

theorem pySet_eq_self_of_pyGet {α : Type} (d : PyDict α) (k : String) (v : α)
    (h : pyGet d k = some v) : pySet d k v = d := by
  induction d with
  | nil => simp [pyGet] at h
  | cons kv rest ih =>
    by_cases hk : kv.1 = k
    · simp only [pyGet, if_pos hk] at h
      injection h with h
      simp only [pySet, if_pos hk]
      rw [← hk, ← h]
    · simp only [pyGet, if_neg hk] at h
      simp [pySet, hk, ih h]

theorem pySet_pySet {α : Type} (d : PyDict α) (k : String) (v w : α) :
    pySet (pySet d k v) k w = pySet d k w := by
  induction d with
  | nil => simp [pySet]
  | cons kv rest ih =>
    by_cases hk : kv.1 = k
    · simp [pySet, hk]
    · simp [pySet, hk, ih]

theorem pySet_append_of_not_hasKey {α : Type} (d : PyDict α) (k : String) (v : α)
    (h : pyHasKey d k = false) : pySet d k v = d ++ [(k, v)] := by
  induction d with
  | nil => rfl
  | cons kv rest ih =>
    by_cases hk : kv.1 = k
    · simp [pyHasKey, hk] at h
    · simp only [pyHasKey, if_neg hk] at h
      simp [pySet, hk, ih h]

theorem foldl_manifest_step {α : Type} (K : String) (g : String × α → String × α)
    (xs : List (String × α)) (d : PyDict (List (String × α)))
    (l : List (String × α)) (hd : pyGet d K = some l) :
    List.foldl (fun data kv => pySet data K (pyGetD data K [] ++ [g kv])) d xs
      = pySet d K (l ++ List.map g xs) := by
  induction xs generalizing d l with
  | nil =>
    rw [List.foldl_nil, List.map_nil, List.append_nil]
    exact (pySet_eq_self_of_pyGet d K l hd).symm
  | cons x xs ih =>
    rw [List.foldl_cons]
    have hstep : pyGetD d K [] = l := by rw [pyGetD, hd]; rfl
    rw [hstep]
    have hget2 : pyGet (pySet d K (l ++ [g x])) K = some (l ++ [g x]) := by
      rw [pyGet_pySet, if_pos rfl]
    rw [ih (pySet d K (l ++ [g x])) (l ++ [g x]) hget2, pySet_pySet]
    simp [List.append_assoc]

theorem foldl_manifest_step_absent {α : Type} (K : String) (g : String × α → String × α)
    (xs : List (String × α)) (d : PyDict (List (String × α)))
    (hd : pyHasKey d K = false) (hxs : xs ≠ []) :
    List.foldl (fun data kv => pySet data K (pyGetD data K [] ++ [g kv])) d xs
      = pySet d K (List.map g xs) := by
  cases xs with
  | nil => exact absurd rfl hxs
  | cons x xs =>
    rw [List.foldl_cons]
    have hd0 : pyGetD d K [] = [] := by
      rw [pyGetD, pyGet_eq_none_of_not_hasKey d K hd]
      rfl
    rw [hd0]
    have hget : pyGet (pySet d K ([] ++ [g x])) K = some ([] ++ [g x]) := by
      rw [pyGet_pySet, if_pos rfl]
    rw [foldl_manifest_step K g xs (pySet d K ([] ++ [g x])) ([] ++ [g x]) hget,
      pySet_pySet]
    simp

/-- C8: the emitted manifest has, under "added" and "missing", the ordered
sequences of single-key mappings from file identifier to the sorted sequence
of its strings; a top-level key with an empty mapping is omitted entirely;
nothing is printed iff both mappings are empty; and sorted means a stable
permutation ordered by string comparison. -/
theorem c8_manifest_structure (missing added : PyDict (List String)) :
    print_manifest_data missing added
      = ((if added = [] then [] else
            [("added", List.map (fun kv => (kv.1, pySorted kv.2)) added)])
          ++ (if missing = [] then [] else
            [("missing", List.map (fun kv => (kv.1, pySorted kv.2)) missing)]))
    ∧ (manifest_emitted missing added = false ↔ (added = [] ∧ missing = []))
    ∧ (∀ l : List String,
        List.Pairwise (fun a b : String => a ≤ b) (pySorted l)
        ∧ List.Perm (pySorted l) l) := by
  have hadded : List.foldl
      (fun data kv =>
        pySet data "added" (pyGetD data "added" [] ++ [(kv.1, pySorted kv.2)]))
      [] added
      = (if added = [] then [] else
          [("added", List.map (fun kv => (kv.1, pySorted kv.2)) added)]) := by
    by_cases ha : added = []
    · subst ha
      rfl
    · rw [if_neg ha,
        foldl_manifest_step_absent "added" (fun kv => (kv.1, pySorted kv.2)) added []
          (by rfl) ha]
      rfl
  have hnomissing : pyHasKey
      (if added = [] then ([] : PyDict (List (String × List String))) else
        [("added", List.map (fun kv => (kv.1, pySorted kv.2)) added)]) "missing"
      = false := by
    by_cases ha : added = []
    · rw [if_pos ha]
      rfl
    · rw [if_neg ha]
      simp [pyHasKey]
  have hstruct : print_manifest_data missing added
      = ((if added = [] then [] else
            [("added", List.map (fun kv => (kv.1, pySorted kv.2)) added)])
          ++ (if missing = [] then [] else
            [("missing", List.map (fun kv => (kv.1, pySorted kv.2)) missing)])) := by
    rw [print_manifest_data, hadded]
    by_cases hm : missing = []
    · subst hm
      rw [List.foldl_nil, if_pos rfl, List.append_nil]
    · rw [if_neg hm,
        foldl_manifest_step_absent "missing" (fun kv => (kv.1, pySorted kv.2)) missing _
          hnomissing hm,
        pySet_append_of_not_hasKey _ _ _ hnomissing]
  refine ⟨hstruct, ?_, ?_⟩
  · rw [manifest_emitted, hstruct]
    by_cases ha : added = [] <;> by_cases hm : missing = [] <;>
      simp [ha, hm, List.isEmpty]
  · intro l
    constructor
    · have := List.sorted_mergeSort
        (fun a b c (h1 : decide (a ≤ b) = true) (h2 : decide (b ≤ c) = true) => by
          simp only [decide_eq_true_eq] at h1 h2 ⊢
          exact le_trans h1 h2)
        (fun a b => by simp only [Bool.or_eq_true, decide_eq_true_eq]; exact le_total a b)
        l
      exact this.imp (fun h => by simpa using h)
    · exact List.mergeSort_perm l (fun a b => decide (a ≤ b))

/-! C10: the snapshot file never appears as a key of the missing mapping. -/

theorem missing_for_self (S : EntryDict) : missing_for S S = [] := by
  unfold missing_for
  rw [List.map_eq_nil_iff, List.filter_eq_nil_iff]
  intro kv hkv
  have : pyHasKey S kv.1 = true :=
    (pyHasKey_iff_mem_keys S kv.1).mpr (List.mem_map_of_mem Prod.fst hkv)
  simp [this]

theorem pyHasKey_pySet_other {α : Type} (d : PyDict α) (k : String) (v : α)
    (k' : String) (h : ¬ k = k') : pyHasKey (pySet d k v) k' = pyHasKey d k' := by
  induction d with
  | nil => simp [pySet, pyHasKey, h]
  | cons kv rest ih =>
    by_cases hk : kv.1 = k
    · have hkv : ¬ k = k' := h
      simp [pySet, pyHasKey, hk, h, ih]
    · simp [pySet, pyHasKey, hk, ih]

theorem pyGet_eq_of_mem_nodup {α : Type} (d : PyDict α) (kv : String × α)
    (hnd : (pyKeys d).Nodup) (hmem : kv ∈ d) : pyGet d kv.1 = some kv.2 := by
  induction d with
  | nil => cases hmem
  | cons x rest ih =>
    simp only [pyKeys, List.map_cons, List.nodup_cons] at hnd
    rcases List.mem_cons.mp hmem with he | hmem2
    · subst he
      simp [pyGet]
    · have hx : ¬ x.1 = kv.1 := by
        intro e
        exact hnd.1 (e ▸ List.mem_map_of_mem Prod.fst hmem2)
      simp only [pyGet, if_neg hx]
      exact ih hnd.2 hmem2

theorem check_missing_preserves_absent (S : EntryDict) (l : List (String × EntryDict))
    (src : String) (m : PyDict (List String))
    (hm : pyHasKey m src = false)
    (hl : ∀ kv ∈ l, kv.1 = src → missing_for S kv.2 = []) :
    pyHasKey (List.foldl (fun acc kv => record_missing S kv.1 kv.2 acc) m l) src
      = false := by
  induction l generalizing m with
  | nil => exact hm
  | cons x xs ih =>
    rw [List.foldl_cons]
    apply ih
    · by_cases hx : x.1 = src
      · rw [record_missing_of_nil x.1 m (hl x (List.mem_cons_self x xs) hx)]
        exact hm
      · by_cases he : missing_for S x.2 = []
        · rw [record_missing_of_nil x.1 m he]
          exact hm
        · rw [record_missing_of_set x.1 m he, pyHasKey_pySet_other m x.1 _ src hx]
          exact hm
    · exact fun kv hkv => hl kv (List.mem_cons_of_mem x hkv)

/-- C10: when the source identifier maps (uniquely) to its own entry mapping
inside the parsed bundle and the accumulated missing map does not yet
mention it (as in a run over a single bundle, where the accumulator starts
empty), check_missing_keys_in_other_locales never records the snapshot file:
compared against itself every source key is present, and empty results are
not recorded. -/
theorem c10_snapshot_never_missing (src : String) (bundle : PyDict EntryDict)
    (m : PyDict (List String))
    (hnd : (pyKeys bundle).Nodup)
    (hm : pyHasKey m src = false) :
    pyHasKey (check_missing_keys_in_other_locales src bundle m) src = false := by
  unfold check_missing_keys_in_other_locales
  apply check_missing_preserves_absent (pyGetD bundle src []) bundle src m hm
  intro kv hkv he
  have hget : pyGet bundle src = some kv.2 := he ▸ pyGet_eq_of_mem_nodup bundle kv hnd hkv
  rw [pyGetD, hget]
  exact missing_for_self kv.2

/-- C10 witness: a parsed bundle of a snapshot file and one other locale;
the snapshot key is absent from the resulting missing map. -/
theorem c10_witness :
    (pyKeys [("app_en_US.json.snapshot", [("a", "1")]), ("app_fr.json", [])]).Nodup
    ∧ pyHasKey ([] : PyDict (List String)) "app_en_US.json.snapshot" = false
    ∧ pyHasKey (check_missing_keys_in_other_locales "app_en_US.json.snapshot"
          [("app_en_US.json.snapshot", [("a", "1")]), ("app_fr.json", [])] [])
        "app_en_US.json.snapshot" = false :=
  ⟨by decide, by decide,
   c10_snapshot_never_missing "app_en_US.json.snapshot"
     [("app_en_US.json.snapshot", [("a", "1")]), ("app_fr.json", [])] []
     (by decide) (by decide)⟩
